import Mathlib

/-!
# Verification of the bkmonitor-datalink reconciliation control plane

Shallow embedding of the reconciliation control plane of the
bkmonitor-datalink repository:

* the task fingerprint generator (`generateTaskID` / `avoidOverflow`,
  from `pkg/operator/target`),
* the ES-storage refresh pass (`RefreshESStorage`, from
  `pkg/bk-monitor-worker/.../task`),
* the BCS cluster service (`UpdateBcsClusterCloudIdConfig`,
  `RefreshCommonResource`, `isSameMapConfig`, from
  `pkg/bk-monitor-worker/.../service`).

Machine integers are modelled as `Nat` with explicit reduction modulo
`2 ^ 64` where the Go code relies on `uint64` wrap-around.  Fallible
calls (database queries, HTTP APIs) are modelled as `Except String`
values or functions supplied as parameters.
-/

/-! ## Fingerprint generator (`pkg/operator/target`) -/

/-- Go's `math.MaxInt32`. -/
def maxInt32 : Nat := 2147483647

/-- `avoidOverflow` from `pkg/operator/target`: repeatedly divide by 50
until the value fits into a signed 31-bit range. -/
def avoidOverflow (num : Nat) : Nat :=
  if num > maxInt32 then avoidOverflow (num / 50) else num
termination_by num
decreasing_by
  simp only [maxInt32] at *
  exact Nat.div_lt_self (by omega) (by omega)

/-- FNV-1a 64-bit offset basis (Go `hash/fnv.New64a`). -/
def fnvOffset64 : Nat := 14695981039346656037

/-- FNV-1a 64-bit prime. -/
def fnvPrime64 : Nat := 1099511628211

/-- One byte of FNV-1a 64: xor the byte in, multiply by the prime,
modulo `2 ^ 64` (Go `uint64` arithmetic). -/
def fnvStep (h b : Nat) : Nat := ((h ^^^ b) * fnvPrime64) % (2 ^ 64)

/-- `hash.Write` over a byte sequence. -/
def fnvWrite (h : Nat) (bs : List Nat) : Nat := bs.foldl fnvStep h

/-- Bytes of a Go string (UTF-8 encoding). -/
def strBytes (s : String) : List Nat := s.toUTF8.toList.map (fun b => b.toNat)

/-- The fields of `MetricTarget` that participate in `generateTaskID`,
plus some of the fields that do not (to state determinism
non-trivially). -/
structure MetricTarget where
  dataID : Int
  address : String
  path : String
  labels : List (String × String)
  metaIndex : Int
  namespaceF : String
  metaName : String
  nodeName : String
  scheme : String
  period : String

/-- `generateTaskID` from `pkg/operator/target`: FNV-1a over
`fmt.Sprintf("%d", DataID)`, `Address`, `Path`, each label name/value in
order, `fmt.Sprintf("%d", Meta.Index)`, `Namespace`, `Meta.Name`,
then reduced by `avoidOverflow`. -/
def generateTaskID (t : MetricTarget) : Nat :=
  let h := fnvOffset64
  let h := fnvWrite h (strBytes (toString t.dataID))
  let h := fnvWrite h (strBytes t.address)
  let h := fnvWrite h (strBytes t.path)
  let h := t.labels.foldl
    (fun a lb => fnvWrite (fnvWrite a (strBytes lb.1)) (strBytes lb.2)) h
  let h := fnvWrite h (strBytes (toString t.metaIndex))
  let h := fnvWrite h (strBytes t.namespaceF)
  let h := fnvWrite h (strBytes t.metaName)
  avoidOverflow h

lemma avoidOverflow_le (n : Nat) : avoidOverflow n ≤ maxInt32 := by
  induction n using avoidOverflow.induct with
  | case1 n h ih => rw [avoidOverflow, if_pos h]; exact ih
  | case2 n h => rw [avoidOverflow, if_neg h]; omega

lemma avoidOverflow_of_le (n : Nat) (h : n ≤ maxInt32) : avoidOverflow n = n := by
  rw [avoidOverflow, if_neg (by omega : ¬ n > maxInt32)]

lemma avoidOverflow_pow (n : Nat) : ∃ k, avoidOverflow n = n / 50 ^ k := by
  induction n using avoidOverflow.induct with
  | case1 n h ih =>
    obtain ⟨k, hk⟩ := ih
    refine ⟨k + 1, ?_⟩
    rw [avoidOverflow, if_pos h, hk, Nat.div_div_eq_div_mul, pow_succ, mul_comm]
  | case2 n h =>
    exact ⟨0, by rw [avoidOverflow, if_neg h]; simp⟩

/-- **C6.** For every unsigned 64-bit input, `avoidOverflow` terminates
(it is a total Lean function) and returns a value at most
`math.MaxInt32`; the result is the input integer-divided by some power
of 50, and an input already within range is returned unchanged. -/
theorem avoidOverflow_reduction (n : Nat) (_h64 : n < 2 ^ 64) :
    avoidOverflow n ≤ maxInt32 ∧
    (n ≤ maxInt32 → avoidOverflow n = n) ∧
    (∃ k, avoidOverflow n = n / 50 ^ k) :=
  ⟨avoidOverflow_le n, fun h => avoidOverflow_of_le n h, avoidOverflow_pow n⟩

theorem avoidOverflow_reduction_witness :
    (5 : Nat) < 2 ^ 64 ∧ avoidOverflow 5 ≤ maxInt32 ∧ avoidOverflow 5 = 5 :=
  ⟨by norm_num,
   (avoidOverflow_reduction 5 (by norm_num)).1,
   (avoidOverflow_reduction 5 (by norm_num)).2.1 (by norm_num [maxInt32])⟩

/-- **C7.** `generateTaskID` is deterministic: two metric targets that
agree on `DataID`, `Address`, `Path`, the ordered label list,
`Meta.Index`, `Namespace` and `Meta.Name` receive the same task
identifier, whatever their other fields are; being a pure function, two
runs on the same target trivially agree. -/
theorem generateTaskID_deterministic (t1 t2 : MetricTarget)
    (h1 : t1.dataID = t2.dataID) (h2 : t1.address = t2.address)
    (h3 : t1.path = t2.path) (h4 : t1.labels = t2.labels)
    (h5 : t1.metaIndex = t2.metaIndex) (h6 : t1.namespaceF = t2.namespaceF)
    (h7 : t1.metaName = t2.metaName) :
    generateTaskID t1 = generateTaskID t2 := by
  simp only [generateTaskID, h1, h2, h3, h4, h5, h6, h7]

theorem generateTaskID_deterministic_witness :
    generateTaskID ⟨10, "1.2.3.4:80", "/metrics", [("job", "demo")], 1, "ns", "mon", "node-a", "http", "30s"⟩
      = generateTaskID ⟨10, "1.2.3.4:80", "/metrics", [("job", "demo")], 1, "ns", "mon", "node-b", "https", "60s"⟩ :=
  generateTaskID_deterministic _ _ rfl rfl rfl rfl rfl rfl rfl

/-! ## Structural comparison of resource documents (`isSameMapConfig`) -/

/-- A configuration value tree: the Go `interface{}` values occurring in
the dataid resource documents — scalars (string, integer, bool) or
string-keyed maps. -/
inductive CVal where
  | str (s : String)
  | int (n : Int)
  | boolean (b : Bool)
  | vmap (m : List (String × CVal))

/-- Go map indexing `target[k]` (keys of a Go map are unique). -/
def lookupK : List (String × CVal) → String → Option CVal
  | [], _ => none
  | (k, v) :: rest, key => if k = key then some v else lookupK rest key

/-- Go `==` between two `interface{}` values of non-map dynamic kind:
values of different dynamic types compare unequal. -/
def scalarEq : CVal → CVal → Bool
  | .str a, .str b => a == b
  | .int a, .int b => a == b
  | .boolean a, .boolean b => a == b
  | _, _ => false

/-- `isSameMapConfig` from the BCS cluster service: iterate the source
map; a key missing from the target, a map/non-map kind mismatch, or an
unequal scalar value makes the comparison fail; map values recurse;
keys only present in the target are never looked at. -/
def isSameMapConfig : List (String × CVal) → List (String × CVal) → Bool
  | [], _ => true
  | (k, v) :: rest, target =>
    (match lookupK target k, v with
     | none, _ => false
     | some (.vmap m2), .vmap m => isSameMapConfig m m2
     | some _, .vmap _ => false
     | some val, vv => scalarEq vv val)
    && isSameMapConfig rest target

/-- The value-level comparison step performed by `isSameMapConfig` for
one key (the `switch` on the source value's kind). -/
def sameVal (v w : CVal) : Bool :=
  match v, w with
  | .vmap m, .vmap m2 => isSameMapConfig m m2
  | .vmap _, _ => false
  | a, b => scalarEq a b

lemma isSameMapConfig_cons (k : String) (v : CVal)
    (rest target : List (String × CVal)) :
    isSameMapConfig ((k, v) :: rest) target =
      ((match lookupK target k with
        | none => false
        | some w => sameVal v w) && isSameMapConfig rest target) := by
  cases hl : lookupK target k with
  | none => cases v <;> simp [isSameMapConfig, sameVal, hl]
  | some w => cases v <;> cases w <;> simp [isSameMapConfig, sameVal, scalarEq, hl]

/-- Modelled from the spec's wording of structural subset-equality:
every key of the desired (source) document must be present in the
observed (target) document with a recursively matching value; scalars
must be equal, maps recurse, any kind mismatch fails, and keys present
only in the target are ignored. -/
inductive ValMatches : CVal → CVal → Prop where
  | str (s : String) : ValMatches (.str s) (.str s)
  | int (n : Int) : ValMatches (.int n) (.int n)
  | boolean (b : Bool) : ValMatches (.boolean b) (.boolean b)
  | vmap (m m2 : List (String × CVal))
      (hdom : ∀ k v, (k, v) ∈ m → (lookupK m2 k).isSome = true)
      (hrec : ∀ k v w, (k, v) ∈ m → lookupK m2 k = some w → ValMatches v w) :
      ValMatches (.vmap m) (.vmap m2)

/-- The spec's map-level condition: every source entry has a matching
target entry. -/
def MapMatches (m m2 : List (String × CVal)) : Prop :=
  ∀ k v, (k, v) ∈ m → ∃ w, lookupK m2 k = some w ∧ ValMatches v w

lemma valMatches_vmap_iff (m m2 : List (String × CVal)) :
    ValMatches (.vmap m) (.vmap m2) ↔ MapMatches m m2 := by
  constructor
  · rintro ⟨⟩
    · intro k v hv
      rename_i hdom hrec
      rcases ho : lookupK m2 k with _ | w
      · have := hdom k v hv
        rw [ho] at this
        simp at this
      · exact ⟨w, rfl, hrec k v w hv ho⟩
  · intro h
    refine ValMatches.vmap m m2 (fun k v hv => ?_) (fun k v w hv hw => ?_)
    · obtain ⟨w, hw, _⟩ := h k v hv
      rw [hw]; rfl
    · obtain ⟨w', hw', hm⟩ := h k v hv
      rw [hw] at hw'
      injection hw' with he
      exact he ▸ hm

lemma valMatches_str_iff (s : String) (w : CVal) :
    ValMatches (.str s) w ↔ w = .str s := by
  constructor
  · rintro ⟨⟩; rfl
  · rintro rfl; exact .str s

lemma valMatches_int_iff (n : Int) (w : CVal) :
    ValMatches (.int n) w ↔ w = .int n := by
  constructor
  · rintro ⟨⟩; rfl
  · rintro rfl; exact .int n

lemma valMatches_boolean_iff (b : Bool) (w : CVal) :
    ValMatches (.boolean b) w ↔ w = .boolean b := by
  constructor
  · rintro ⟨⟩; rfl
  · rintro rfl; exact .boolean b

lemma sameVal_isSame_iff : ∀ n : Nat,
    (∀ v w : CVal, sizeOf v ≤ n → (sameVal v w = true ↔ ValMatches v w)) ∧
    (∀ m m2 : List (String × CVal), sizeOf m ≤ n →
      (isSameMapConfig m m2 = true ↔ MapMatches m m2)) := by
  intro n
  induction n using Nat.strong_induction_on with
  | _ n ih =>
    constructor
    · intro v w hv
      cases v with
      | str s =>
        cases w with
        | str t =>
          simp only [sameVal, scalarEq, beq_iff_eq, valMatches_str_iff,
            CVal.str.injEq]
          exact eq_comm
        | int i => simp [sameVal, scalarEq, valMatches_str_iff]
        | boolean b => simp [sameVal, scalarEq, valMatches_str_iff]
        | vmap m2 =>
          simp only [sameVal, scalarEq, Bool.false_eq_true, false_iff]
          rintro ⟨⟩
      | int i =>
        cases w with
        | int j =>
          simp only [sameVal, scalarEq, beq_iff_eq, valMatches_int_iff,
            CVal.int.injEq]
          exact eq_comm
        | str t => simp [sameVal, scalarEq, valMatches_int_iff]
        | boolean b => simp [sameVal, scalarEq, valMatches_int_iff]
        | vmap m2 =>
          simp only [sameVal, scalarEq, Bool.false_eq_true, false_iff]
          rintro ⟨⟩
      | boolean b =>
        cases w with
        | boolean c =>
          simp only [sameVal, scalarEq, beq_iff_eq, valMatches_boolean_iff,
            CVal.boolean.injEq]
          exact eq_comm
        | str t => simp [sameVal, scalarEq, valMatches_boolean_iff]
        | int i => simp [sameVal, scalarEq, valMatches_boolean_iff]
        | vmap m2 =>
          simp only [sameVal, scalarEq, Bool.false_eq_true, false_iff]
          rintro ⟨⟩
      | vmap m =>
        cases w with
        | vmap m2 =>
          have hm : sizeOf m < n := by
            have hs : sizeOf (CVal.vmap m) = 1 + sizeOf m := by simp
            omega
          simp only [sameVal]
          rw [valMatches_vmap_iff]
          exact (ih (sizeOf m) hm).2 m m2 le_rfl
        | str s =>
          simp only [sameVal, Bool.false_eq_true, false_iff]
          rintro ⟨⟩
        | int i =>
          simp only [sameVal, Bool.false_eq_true, false_iff]
          rintro ⟨⟩
        | boolean b =>
          simp only [sameVal, Bool.false_eq_true, false_iff]
          rintro ⟨⟩
    · intro m m2 hm
      cases m with
      | nil =>
        simp [isSameMapConfig, MapMatches]
      | cons hd rest =>
        obtain ⟨k, v⟩ := hd
        have hv : sizeOf v < n := by
          simp only [List.cons.sizeOf_spec, Prod.mk.sizeOf_spec] at hm
          omega
        have hrest : sizeOf rest < n := by
          simp only [List.cons.sizeOf_spec, Prod.mk.sizeOf_spec] at hm
          omega
        rw [isSameMapConfig_cons, Bool.and_eq_true]
        simp only [MapMatches]
        constructor
        · rintro ⟨h1, h2⟩ k' v' hmem
          rcases List.mem_cons.mp hmem with he | hmem'
          · injection he with hk hv'
            subst hk; subst hv'
            cases hl : lookupK m2 k' with
            | none => rw [hl] at h1; exact absurd h1 (by simp)
            | some w =>
              rw [hl] at h1
              exact ⟨w, rfl, ((ih (sizeOf v') hv).1 v' w le_rfl).mp h1⟩
          · exact ((ih (sizeOf rest) hrest).2 rest m2 le_rfl).mp h2 k' v' hmem'
        · intro h
          refine ⟨?_, ?_⟩
          · obtain ⟨w, hw, hvm⟩ := h k v (List.mem_cons_self _ _)
            rw [hw]
            exact ((ih (sizeOf v) hv).1 v w le_rfl).mpr hvm
          · exact ((ih (sizeOf rest) hrest).2 rest m2 le_rfl).mpr
              (fun k' v' hmem' => h k' v' (List.mem_cons_of_mem _ hmem'))

/-- **C3.** `isSameMapConfig` returns `true` if and only if every key
present in the desired (source) tree is present in the observed
(target) tree with a recursively matching value: a missing key or a
map/non-map kind mismatch yields not-equal, and keys present only in
the observed tree never affect the result (the right-hand side only
inspects the target at the source's keys). -/
theorem isSameMapConfig_iff_subsetEqual
    (source target : List (String × CVal)) :
    isSameMapConfig source target = true ↔ MapMatches source target :=
  (sameVal_isSame_iff (sizeOf source)).2 source target le_rfl

/-! ## ES storage refresh pass (`RefreshESStorage`) -/

/-- An ES storage record (the fields the pass reads). `RoutableStorage`
records are keyed by their table identifier. -/
structure ESStorage where
  tableID : String
  storageClusterID : Int
deriving DecidableEq

/-- A result-table row with its enable and soft-delete flags. -/
structure ResultTable where
  tableId : String
  isEnable : Bool
  isDeleted : Bool
deriving DecidableEq

/-- `tableIdEsStorageMap`: successive Go map writes; a later write to
the same table id overwrites an earlier one, modelled by prepending and
first-match lookup. -/
def buildTableIdMap (candidates : List ESStorage) : List (String × ESStorage) :=
  candidates.foldl (fun m e => (e.tableID, e) :: m) []

/-- Go map indexing into `tableIdEsStorageMap`. -/
def lookupES : List (String × ESStorage) → String → Option ESStorage
  | [], _ => none
  | (k, v) :: rest, key => if k = key then some v else lookupES rest key

/-- The result-table query of the pass:
`IsEnableEq(true).IsDeletedEq(false).TableIdIn(candidateIds...)`. -/
def queryEnabledTables (db : List ResultTable) (ids : List String) : List ResultTable :=
  db.filter (fun rt => rt.isEnable && !rt.isDeleted && ids.contains rt.tableId)

/-- `needUpdateEsStorageList`: walk the queried result tables and keep
the candidate storage registered under each table id. -/
def needUpdateEsStorageList (candidates : List ESStorage)
    (rts : List ResultTable) : List ESStorage :=
  rts.filterMap (fun rt => lookupES (buildTableIdMap candidates) rt.tableId)

/-- The outcome of one per-entity `ManageESStorage` call. -/
inductive ManageOutcome where
  | success
  | failure (msg : String)

/-- `RefreshESStorage`, parameterised by the outcomes of the two
metadata queries and of the per-entity reconcile calls: query errors
abort the pass with that error; an empty candidate or filtered list is
a benign no-op; otherwise every retained entity is dispatched and the
pass returns no error regardless of the per-entity outcomes (they are
only logged). -/
def refreshESStorage (esQuery : Except String (List ESStorage))
    (rtQuery : List String → Except String (List ResultTable))
    (manage : ESStorage → ManageOutcome) : Except String Unit :=
  match esQuery with
  | .error e => .error e
  | .ok allEs =>
    let ids := allEs.map (fun e => e.tableID)
    if ids.isEmpty then .ok ()
    else
      match rtQuery ids with
      | .error e => .error e
      | .ok rts =>
        let need := needUpdateEsStorageList allEs rts
        if need.isEmpty then .ok ()
        else
          let _outcomes := need.map manage
          .ok ()

/-- **C5.** For every refresh pass whose pre-dispatch metadata queries
succeed, `RefreshESStorage` returns no error, whatever the per-entity
reconcile outcomes are; per-entity failures are never propagated to
the caller. -/
theorem refreshESStorage_ok_of_queries_ok (es : List ESStorage)
    (rtQuery : List String → Except String (List ResultTable))
    (manage : ESStorage → ManageOutcome) (rts : List ResultTable)
    (hq : rtQuery (es.map (fun e => e.tableID)) = .ok rts) :
    refreshESStorage (.ok es) rtQuery manage = .ok () := by
  unfold refreshESStorage
  by_cases he : (es.map (fun e => e.tableID)).isEmpty <;>
    simp [he, hq, ite_self]

theorem refreshESStorage_ok_of_queries_ok_witness :
    refreshESStorage (.ok [⟨"t1", 3⟩])
        (fun _ => .ok [⟨"t1", true, false⟩])
        (fun _ => ManageOutcome.failure "boom") = .ok () :=
  refreshESStorage_ok_of_queries_ok _ _ _ _ rfl

lemma lookupES_foldl_some (cs : List ESStorage)
    (acc : List (String × ESStorage)) (id : String) (e : ESStorage)
    (h : lookupES (cs.foldl (fun m x => (x.tableID, x) :: m) acc) id = some e) :
    (e ∈ cs ∧ e.tableID = id) ∨ lookupES acc id = some e := by
  induction cs generalizing acc with
  | nil => exact Or.inr h
  | cons c cs ih =>
    rcases ih _ h with ⟨hm, he⟩ | hacc
    · exact Or.inl ⟨List.mem_cons_of_mem _ hm, he⟩
    · by_cases hc : c.tableID = id
      · simp only [lookupES, if_pos hc] at hacc
        injection hacc with he2
        subst he2
        exact Or.inl ⟨List.mem_cons_self _ _, hc⟩
      · simp only [lookupES, if_neg hc] at hacc
        exact Or.inr hacc

lemma lookupES_foldl_skip (cs : List ESStorage)
    (acc : List (String × ESStorage)) (id : String)
    (h : id ∉ cs.map (fun x => x.tableID)) :
    lookupES (cs.foldl (fun m x => (x.tableID, x) :: m) acc) id
      = lookupES acc id := by
  induction cs generalizing acc with
  | nil => rfl
  | cons c cs ih =>
    simp only [List.map_cons, List.mem_cons] at h
    push_neg at h
    rw [List.foldl_cons, ih _ h.2]
    simp only [lookupES]
    rw [if_neg (show ¬ c.tableID = id from fun hc => h.1 hc.symm)]

lemma lookupES_foldl_of_mem (cs : List ESStorage)
    (acc : List (String × ESStorage)) (e : ESStorage)
    (hnd : (cs.map (fun x => x.tableID)).Nodup) (hm : e ∈ cs) :
    lookupES (cs.foldl (fun m x => (x.tableID, x) :: m) acc) e.tableID
      = some e := by
  induction cs generalizing acc with
  | nil => cases hm
  | cons c cs ih =>
    simp only [List.map_cons, List.nodup_cons] at hnd
    rcases List.mem_cons.mp hm with rfl | hm'
    · rw [List.foldl_cons, lookupES_foldl_skip cs _ _ hnd.1]
      simp [lookupES]
    · exact List.foldl_cons _ _ ▸ ih _ hnd.2 hm'

/-- **C8.** With candidates keyed by their table identifier, the
consistency filter of `RefreshESStorage` retains exactly the candidate
storages whose table identifier belongs to a result table that is both
enabled and not soft-deleted; a candidate referencing only a deleted or
disabled table is excluded. -/
theorem esStorageFilter_retains_iff (candidates : List ESStorage)
    (db : List ResultTable)
    (hnd : (candidates.map (fun e => e.tableID)).Nodup) (s : ESStorage) :
    s ∈ needUpdateEsStorageList candidates
          (queryEnabledTables db (candidates.map (fun e => e.tableID))) ↔
      s ∈ candidates ∧ ∃ rt ∈ db, rt.tableId = s.tableID ∧
        rt.isEnable = true ∧ rt.isDeleted = false := by
  constructor
  · intro h
    obtain ⟨rt, hrt, hlk⟩ := List.mem_filterMap.mp h
    obtain ⟨hdb, hflags⟩ := List.mem_filter.mp hrt
    rcases lookupES_foldl_some candidates [] rt.tableId s hlk with ⟨hm, he⟩ | hnone
    · simp only [Bool.and_eq_true, Bool.not_eq_eq_eq_not, Bool.not_true] at hflags
      exact ⟨hm, rt, hdb, he.symm, hflags.1.1, by
        have := hflags.1.2; simpa using this⟩
    · cases hnone
  · rintro ⟨hm, rt, hdb, hid, hen, hdel⟩
    apply List.mem_filterMap.mpr
    refine ⟨rt, List.mem_filter.mpr ⟨hdb, ?_⟩, ?_⟩
    · have hin : rt.tableId ∈ candidates.map (fun e => e.tableID) :=
        hid ▸ List.mem_map.mpr ⟨s, hm, rfl⟩
      simp [hen, hdel, hin]
    · rw [hid]
      exact lookupES_foldl_of_mem candidates [] s hnd hm

theorem esStorageFilter_retains_iff_witness :
    (⟨"T1", 1⟩ : ESStorage) ∈ needUpdateEsStorageList
        [⟨"T1", 1⟩, ⟨"T2", 2⟩]
        (queryEnabledTables [⟨"T1", true, false⟩, ⟨"T2", true, true⟩]
          ([⟨"T1", 1⟩, (⟨"T2", 2⟩ : ESStorage)].map (fun e => e.tableID))) ∧
    (⟨"T2", 2⟩ : ESStorage) ∉ needUpdateEsStorageList
        [⟨"T1", 1⟩, ⟨"T2", 2⟩]
        (queryEnabledTables [⟨"T1", true, false⟩, ⟨"T2", true, true⟩]
          ([⟨"T1", 1⟩, (⟨"T2", 2⟩ : ESStorage)].map (fun e => e.tableID))) :=
  ⟨(esStorageFilter_retains_iff [⟨"T1", 1⟩, ⟨"T2", 2⟩]
      [⟨"T1", true, false⟩, ⟨"T2", true, true⟩] (by decide) ⟨"T1", 1⟩).mpr
      (by decide),
   fun h => absurd ((esStorageFilter_retains_iff [⟨"T1", 1⟩, ⟨"T2", 2⟩]
      [⟨"T1", true, false⟩, ⟨"T2", true, true⟩] (by decide) ⟨"T2", 2⟩).mp h)
      (by decide)⟩

/-! ## BCS cluster cloud-region inference (`UpdateBcsClusterCloudIdConfig`) -/

/-- `models.BcsClusterStatusRunning` (defined outside the excerpt; its
concrete text is immaterial — only equality with a cluster's status
field is ever used). -/
def bcsClusterStatusRunning : String := "running"

/-- The cluster-registration fields read or written by the inference. -/
structure BCSClusterInfo where
  clusterID : String
  bkBizId : Int
  status : String
  bkCloudId : Option Int
deriving DecidableEq

/-- A node as returned by `FetchK8sNodeListByCluster`; the inference
only reads `NodeIp`. -/
structure ApiNode where
  nodeIp : String
deriving DecidableEq

/-- One host record of the CMDB `getHostByIp` lookup. -/
structure HostTopoInfo where
  bkHostInnerip : String
  bkHostInneripV6 : String
  bkCloudId : Int
deriving DecidableEq

/-- One entry of a `getHostByIp` request (the code always sends
`BkCloudId: -1`). -/
structure GetHostByIpParams where
  ip : String
  bkCloudId : Int
deriving DecidableEq

/-- One step of building `ipSplits`: append to the last chunk while it
holds fewer than 100 ips, otherwise open a new chunk. -/
def pushIp (splits : List (List String)) (ip : String) : List (List String) :=
  match splits.getLast? with
  | some last =>
    if last.length < 100 then splits.dropLast ++ [last ++ [ip]]
    else splits ++ [[ip]]
  | none => [[ip]]

/-- `ipSplits`: the node ips (empty ips skipped) in chunks of ≤ 100. -/
def buildIpSplits (nodes : List ApiNode) : List (List String) :=
  nodes.foldl (fun acc n => if n.nodeIp = "" then acc else pushIp acc n.nodeIp) []

/-- Go `strings.Split(s, ",")[0]`: the prefix up to the first comma. -/
def firstField (s : String) : String :=
  String.mk (s.data.takeWhile (fun ch => ch ≠ ','))

/-- Record one host's cloud id under its IPv4 and IPv6 address (Go map
writes; the newest binding wins, modelled by prepending). -/
def addHostInfo (m : List (String × Int)) (info : HostTopoInfo) :
    List (String × Int) :=
  let m1 := if info.bkHostInnerip ≠ "" then
    (firstField info.bkHostInnerip, info.bkCloudId) :: m else m
  if info.bkHostInneripV6 ≠ "" then
    (firstField info.bkHostInneripV6, info.bkCloudId) :: m1 else m1

/-- Go map indexing `ipMap[ip]`. -/
def lookupIp : List (String × Int) → String → Option Int
  | [], _ => none
  | (k, v) :: rest, key => if k = key then some v else lookupIp rest key

/-- Resolve every chunk through `getHostByIp`, aborting on the first
error, and accumulate `ipMap`. -/
def collectIpMap
    (resolve : List GetHostByIpParams → Except String (List HostTopoInfo)) :
    List (List String) → List (String × Int) →
    Except String (List (String × Int))
  | [], m => .ok m
  | ips :: rest, m =>
    match resolve (ips.map (fun ip => ⟨ip, -1⟩)) with
    | .error e => .error e
    | .ok infos => collectIpMap resolve rest (infos.foldl addHostInfo m)

/-- `cloudCount[cid]++` (a Go map of counters, modelled as an
association list in first-write order). -/
def bumpCloud : List (Int × Nat) → Int → List (Int × Nat)
  | [], cid => [(cid, 1)]
  | (c, n) :: rest, cid =>
    if c = cid then (c, n + 1) :: rest else (c, n) :: bumpCloud rest cid

/-- The per-cloud-id tally over the nodes whose ip resolved. -/
def buildCloudCount (nodes : List ApiNode) (ipMap : List (String × Int)) :
    List (Int × Nat) :=
  nodes.foldl (fun t n =>
    match lookupIp ipMap n.nodeIp with
    | some cid => bumpCloud t cid
    | none => t) []

/-- The selection loop over the tally, started from
`maxCountCloudId = 0, maxCount = 0`, keeping any strictly greater
count. -/
def selectMax (l : List (Int × Nat)) (b : Int × Nat) : Int × Nat :=
  l.foldl (fun best p => if p.2 > best.2 then p else best) b

/-- The cloud id selected from the tally. -/
def maxCountCloudId (t : List (Int × Nat)) : Int :=
  (selectMax t ((0 : Int), (0 : Nat))).1

/-- `UpdateBcsClusterCloudIdConfig`: do nothing unless the cluster is
running with an unset cloud id; otherwise fetch the node list, resolve
the node ips in chunks, tally the resolved cloud ids and persist the
selected one.  The boolean of the result records whether the cluster
row was written (`b.Update(...)`). -/
def updateBcsClusterCloudIdConfig (c : BCSClusterInfo)
    (fetchNodes : Except String (List ApiNode))
    (resolve : List GetHostByIpParams → Except String (List HostTopoInfo)) :
    Except String (BCSClusterInfo × Bool) :=
  if c.status ≠ bcsClusterStatusRunning ∨ c.bkCloudId ≠ none then .ok (c, false)
  else
    match fetchNodes with
    | .error e => .error e
    | .ok nodes =>
      match collectIpMap resolve (buildIpSplits nodes) [] with
      | .error e => .error e
      | .ok ipMap =>
        let tally := buildCloudCount nodes ipMap
        .ok ({ c with bkCloudId := some (maxCountCloudId tally) }, true)

/-- **C2.** The inference performs no write and leaves the cluster
unchanged whenever the cloud id is already set or the cluster is not
running, and whenever it does write, the cloud id goes from absent to
set — never from one set value to another. -/
theorem updateCloudId_write_once (c : BCSClusterInfo)
    (fetchNodes : Except String (List ApiNode))
    (resolve : List GetHostByIpParams → Except String (List HostTopoInfo)) :
    (c.status ≠ bcsClusterStatusRunning ∨ c.bkCloudId ≠ none →
      updateBcsClusterCloudIdConfig c fetchNodes resolve = .ok (c, false)) ∧
    (∀ c', updateBcsClusterCloudIdConfig c fetchNodes resolve = .ok (c', true) →
      c.bkCloudId = none ∧ ∃ v, c'.bkCloudId = some v) := by
  constructor
  · intro h
    unfold updateBcsClusterCloudIdConfig
    rw [if_pos h]
  · intro c' h
    unfold updateBcsClusterCloudIdConfig at h
    by_cases hg : c.status ≠ bcsClusterStatusRunning ∨ c.bkCloudId ≠ none
    · rw [if_pos hg] at h
      simp at h
    · rw [if_neg hg] at h
      push_neg at hg
      refine ⟨hg.2, ?_⟩
      cases fetchNodes with
      | error e => simp at h
      | ok nodes =>
        simp only at h
        cases hc : collectIpMap resolve (buildIpSplits nodes) [] with
        | error e => rw [hc] at h; simp at h
        | ok ipMap =>
          rw [hc] at h
          simp only [Except.ok.injEq, Prod.mk.injEq] at h
          obtain ⟨h1, -⟩ := h
          refine ⟨maxCountCloudId (buildCloudCount nodes ipMap), ?_⟩
          rw [← h1]

theorem updateCloudId_write_once_witness :
    updateBcsClusterCloudIdConfig ⟨"BCS-K8S-00001", 2, "running", some 3⟩
        (.ok []) (fun _ => .ok [])
      = .ok (⟨"BCS-K8S-00001", 2, "running", some 3⟩, false) :=
  (updateCloudId_write_once _ _ _).1 (Or.inr (by simp))

lemma bumpCloud_pos (t : List (Int × Nat)) (cid : Int)
    (h : ∀ p ∈ t, 1 ≤ p.2) : ∀ p ∈ bumpCloud t cid, 1 ≤ p.2 := by
  induction t with
  | nil =>
    intro p hp
    simp only [bumpCloud, List.mem_singleton] at hp
    subst hp
    exact le_refl 1
  | cons q rest ih =>
    obtain ⟨c, n⟩ := q
    intro p hp
    by_cases hc : c = cid
    · simp only [bumpCloud, if_pos hc, List.mem_cons] at hp
      rcases hp with rfl | hp
      · omega
      · exact h p (List.mem_cons_of_mem _ hp)
    · simp only [bumpCloud, if_neg hc, List.mem_cons] at hp
      rcases hp with rfl | hp
      · exact h (c, n) (List.mem_cons_self _ _)
      · exact ih (fun q hq => h q (List.mem_cons_of_mem _ hq)) p hp

lemma buildCloudCount_go_pos (nodes : List ApiNode)
    (ipMap : List (String × Int)) (t : List (Int × Nat))
    (h : ∀ p ∈ t, 1 ≤ p.2) :
    ∀ p ∈ nodes.foldl (fun t n =>
      match lookupIp ipMap n.nodeIp with
      | some cid => bumpCloud t cid
      | none => t) t, 1 ≤ p.2 := by
  induction nodes generalizing t with
  | nil => exact h
  | cons nd nodes ih =>
    rw [List.foldl_cons]
    cases hl : lookupIp ipMap nd.nodeIp with
    | none => exact ih t h
    | some cid => exact ih _ (bumpCloud_pos t cid h)

lemma buildCloudCount_pos (nodes : List ApiNode)
    (ipMap : List (String × Int)) :
    ∀ p ∈ buildCloudCount nodes ipMap, 1 ≤ p.2 :=
  buildCloudCount_go_pos nodes ipMap [] (by simp)

lemma selectMax_spec (l : List (Int × Nat)) (b : Int × Nat) :
    (selectMax l b = b ∨ selectMax l b ∈ l) ∧
    b.2 ≤ (selectMax l b).2 ∧ ∀ p ∈ l, p.2 ≤ (selectMax l b).2 := by
  induction l generalizing b with
  | nil => exact ⟨Or.inl rfl, le_rfl, by simp⟩
  | cons q rest ih =>
    have hstep : selectMax (q :: rest) b
        = selectMax rest (if q.2 > b.2 then q else b) := rfl
    by_cases hq : q.2 > b.2
    · rw [hstep, if_pos hq]
      obtain ⟨hmem, hle, hall⟩ := ih (b := q)
      refine ⟨?_, le_trans (le_of_lt hq) hle, ?_⟩
      · rcases hmem with h | h
        · exact Or.inr (by rw [h]; exact List.mem_cons_self _ _)
        · exact Or.inr (List.mem_cons_of_mem _ h)
      · intro p hp
        rcases List.mem_cons.mp hp with rfl | hp'
        · exact hle
        · exact hall p hp'
    · rw [hstep, if_neg hq]
      obtain ⟨hmem, hle, hall⟩ := ih (b := b)
      refine ⟨?_, hle, ?_⟩
      · rcases hmem with h | h
        · exact Or.inl h
        · exact Or.inr (List.mem_cons_of_mem _ h)
      · intro p hp
        rcases List.mem_cons.mp hp with rfl | hp'
        · omega
        · exact hall p hp'

/-- **C4.** On a running cluster with an unset cloud id, when the node
fetch and every ip lookup succeed and the resolved tally is non-empty,
the inference writes the cloud id whose tally count is highest (the
first such one in scanning order), and that id indeed occurs in the
tally with a count no smaller than any other. -/
theorem updateCloudId_majority (c : BCSClusterInfo)
    (fetchNodes : Except String (List ApiNode))
    (resolve : List GetHostByIpParams → Except String (List HostTopoInfo))
    (nodes : List ApiNode) (ipMap : List (String × Int))
    (h1 : c.status = bcsClusterStatusRunning) (h2 : c.bkCloudId = none)
    (h3 : fetchNodes = .ok nodes)
    (h4 : collectIpMap resolve (buildIpSplits nodes) [] = .ok ipMap)
    (h5 : buildCloudCount nodes ipMap ≠ []) :
    updateBcsClusterCloudIdConfig c fetchNodes resolve =
      .ok ({ c with bkCloudId := some (maxCountCloudId (buildCloudCount nodes ipMap)) }, true) ∧
    ∃ cnt, (maxCountCloudId (buildCloudCount nodes ipMap), cnt)
        ∈ buildCloudCount nodes ipMap ∧
      ∀ p ∈ buildCloudCount nodes ipMap, p.2 ≤ cnt := by
  constructor
  · unfold updateBcsClusterCloudIdConfig
    rw [if_neg (by push_neg; exact ⟨h1, h2⟩), h3]
    simp only [h4]
  · have hpos := buildCloudCount_pos nodes ipMap
    obtain ⟨hmem, -, hall⟩ :=
      selectMax_spec (buildCloudCount nodes ipMap) ((0 : Int), (0 : Nat))
    rcases hmem with hb | hm
    · cases ht : buildCloudCount nodes ipMap with
      | nil => exact absurd ht h5
      | cons q rest =>
        have hq1 : 1 ≤ q.2 := hpos q (ht ▸ List.mem_cons_self _ _)
        have hq2 : q.2 ≤ (selectMax (buildCloudCount nodes ipMap) ((0 : Int), (0 : Nat))).2 :=
          hall q (ht ▸ List.mem_cons_self _ _)
        rw [hb] at hq2
        omega
    · refine ⟨(selectMax (buildCloudCount nodes ipMap) ((0 : Int), (0 : Nat))).2, ?_, hall⟩
      have : ((maxCountCloudId (buildCloudCount nodes ipMap)),
          (selectMax (buildCloudCount nodes ipMap) ((0 : Int), (0 : Nat))).2)
          = selectMax (buildCloudCount nodes ipMap) ((0 : Int), (0 : Nat)) := rfl
      rw [this]
      exact hm

/-- **C10.** On a running cluster with an unset cloud id, when no node
ip resolves to any host record — the tally is empty — the inference
still writes: the cloud id is set and persisted as the default value
`0`. -/
theorem updateCloudId_empty_tally_default (c : BCSClusterInfo)
    (fetchNodes : Except String (List ApiNode))
    (resolve : List GetHostByIpParams → Except String (List HostTopoInfo))
    (nodes : List ApiNode) (ipMap : List (String × Int))
    (h1 : c.status = bcsClusterStatusRunning) (h2 : c.bkCloudId = none)
    (h3 : fetchNodes = .ok nodes)
    (h4 : collectIpMap resolve (buildIpSplits nodes) [] = .ok ipMap)
    (h5 : buildCloudCount nodes ipMap = []) :
    updateBcsClusterCloudIdConfig c fetchNodes resolve =
      .ok ({ c with bkCloudId := some 0 }, true) := by
  unfold updateBcsClusterCloudIdConfig
  rw [if_neg (by push_neg; exact ⟨h1, h2⟩), h3]
  simp only [h4, h5]
  rfl

theorem updateCloudId_majority_witness :
    updateBcsClusterCloudIdConfig ⟨"BCS-K8S-00002", 2, "running", none⟩
        (.ok [⟨"a"⟩, ⟨"b"⟩, ⟨"c"⟩, ⟨"d"⟩, ⟨"e"⟩])
        (fun ps => .ok (ps.map (fun p =>
          ⟨p.ip, "", if p.ip = "a" ∨ p.ip = "b" ∨ p.ip = "c" then 7 else 9⟩)))
      = .ok (⟨"BCS-K8S-00002", 2, "running",
          some (maxCountCloudId (buildCloudCount [⟨"a"⟩, ⟨"b"⟩, ⟨"c"⟩, ⟨"d"⟩, ⟨"e"⟩]
            [("e", 9), ("d", 9), ("c", 7), ("b", 7), ("a", 7)]))⟩, true) :=
  (updateCloudId_majority ⟨"BCS-K8S-00002", 2, "running", none⟩
    (.ok [⟨"a"⟩, ⟨"b"⟩, ⟨"c"⟩, ⟨"d"⟩, ⟨"e"⟩])
    (fun ps => .ok (ps.map (fun p =>
      ⟨p.ip, "", if p.ip = "a" ∨ p.ip = "b" ∨ p.ip = "c" then 7 else 9⟩)))
    [⟨"a"⟩, ⟨"b"⟩, ⟨"c"⟩, ⟨"d"⟩, ⟨"e"⟩]
    [("e", 9), ("d", 9), ("c", 7), ("b", 7), ("a", 7)]
    rfl rfl rfl (by rfl) (by decide)).1

theorem updateCloudId_empty_tally_default_witness :
    updateBcsClusterCloudIdConfig ⟨"BCS-K8S-00003", 2, "running", none⟩
        (.ok [⟨"10.0.0.1"⟩]) (fun _ => .ok [])
      = .ok (⟨"BCS-K8S-00003", 2, "running", some 0⟩, true) :=
  updateCloudId_empty_tally_default ⟨"BCS-K8S-00003", 2, "running", none⟩
    (.ok [⟨"10.0.0.1"⟩]) (fun _ => .ok []) [⟨"10.0.0.1"⟩] []
    rfl rfl rfl rfl rfl

/-! ## Common dataid resource refresh (`RefreshCommonResource`) -/

/-- One entry of the static `bcsDatasourceRegisterInfo` catalog. -/
structure DatasourceRegister where
  etlConfig : String
  reportClassName : String
  datasourceName : String
  isSpitMeasurement : Bool
  isSystem : Bool
  usage : String
deriving DecidableEq

/-- The static usage catalog (`K8sMetric`, `CustomMetric`, `K8sEvent`).
Go iterates the catalog map in unspecified order; the declaration order
is used here. -/
def bcsDatasourceRegisterInfo : List DatasourceRegister :=
  [⟨"bk_standard_v2_time_series", "TimeSeriesGroup", "K8sMetricDataID", true, true, "metric"⟩,
   ⟨"bk_standard_v2_time_series", "TimeSeriesGroup", "CustomMetricDataID", true, false, "metric"⟩,
   ⟨"bk_standard_v2_event", "EventGroup", "K8sEventDataID", false, true, "event"⟩]

/-- Go `strings.ToLower` on the ASCII datasource names. -/
def lowerStr (s : String) : String := String.mk (s.data.map Char.toLower)

/-- `composeDataidResourceName`: prefix the environment label when it
is non-empty. -/
def composeDataidResourceName (envLabel name : String) : String :=
  if envLabel ≠ "" then envLabel ++ "-" ++ name else name

/-- Lookup in the observed `resourceMap` (resource name → document). -/
def lookupRes : List (String × List (String × CVal)) → String →
    Option (List (String × CVal))
  | [], _ => none
  | (k, v) :: rest, key => if k = key then some v else lookupRes rest key

/-- The reconcile action taken by `ensureDataIdResource` for one
resource. -/
inductive RAction where
  | create
  | update
deriving DecidableEq

/-- The observable reconcile decisions of `RefreshCommonResource`:
walk the catalog; a usage whose resource name is absent from the
observed resource map is created and the function then returns at once,
ending the pass; a present but structurally different resource is
updated; a present and equal one is left untouched. -/
def refreshCommonResourceActions (envLabel : String)
    (desired : DatasourceRegister → List (String × CVal))
    (observed : List (String × List (String × CVal))) :
    List DatasourceRegister → List (String × RAction)
  | [] => []
  | r :: rest =>
    let name := composeDataidResourceName envLabel (lowerStr r.datasourceName)
    match lookupRes observed name with
    | none => [(name, RAction.create)]
    | some obs =>
      if isSameMapConfig (desired r) obs then
        refreshCommonResourceActions envLabel desired observed rest
      else
        (name, RAction.update) :: refreshCommonResourceActions envLabel desired observed rest

/-- **C1** fails on the code: when every cataloged usage's resource is
absent from the observed list, one invocation of
`RefreshCommonResource` creates only the first usage's resource and
returns immediately — the remaining two cataloged usages are skipped
and left unensured, although the claim requires every usage to be
ensured by the pass. -/
theorem refreshCommonResource_skips_remaining_usages :
    refreshCommonResourceActions "" (fun _ => []) [] bcsDatasourceRegisterInfo
      = [("k8smetricdataid", RAction.create)] ∧
    bcsDatasourceRegisterInfo.length = 3 ∧
    ∀ a ∈ refreshCommonResourceActions "" (fun _ => []) []
        bcsDatasourceRegisterInfo,
      a.1 ≠ "custommetricdataid" ∧ a.1 ≠ "k8seventdataid" := by
  refine ⟨by decide, by decide, by decide⟩

/-! ## Bounded fan-out dispatch (the dispatch loop of `RefreshESStorage`)

The Go loop sends one token into a buffered channel of capacity `C`
before spawning each worker goroutine; the worker receives the token
back and calls `wg.Done()` when its reconcile finishes, and the caller
blocks in `wg.Wait()` until all workers are done.  The loop is embedded
as a small-step transition system over its observable states. -/

/-- The stage of one dispatched worker goroutine: `running` while it
holds a channel slot and executes its reconcile, `finished` once it has
released the slot (`<-ch`) and called `wg.Done()`. -/
inductive WStage where
  | running
  | finished
deriving DecidableEq

/-- One observable state of a dispatch loop: `dispatched` counts the
entities handed to a goroutine so far, `workers` has one entry per
spawned goroutine (entity index, stage), `returned` records whether
`wg.Wait()` has completed and the pass has returned. -/
structure SchedState where
  dispatched : Nat
  workers : List (Nat × WStage)
  returned : Bool
deriving DecidableEq

/-- Workers currently in flight; each holds one slot of the channel
buffer of capacity `C`. -/
def runningCount (s : SchedState) : Nat :=
  (s.workers.filter (fun w => w.2 == WStage.running)).length

/-- The initial state: nothing dispatched, caller not yet returned. -/
def initSched : SchedState := ⟨0, [], false⟩

/-- One interleaving step of the dispatch loop: the main loop may
dispatch the next entity only while a channel slot is free
(`runningCount s < C` — the send blocks otherwise); any running worker
may finish, releasing its slot; the caller returns only once all `N`
entities are dispatched and every worker is done (`wg.Wait`). -/
inductive SchedStep (N C : Nat) : SchedState → SchedState → Prop where
  | dispatch (s : SchedState) (hret : s.returned = false)
      (hn : s.dispatched < N) (hc : runningCount s < C) :
      SchedStep N C s
        ⟨s.dispatched + 1, (s.dispatched, WStage.running) :: s.workers,
         s.returned⟩
  | finish (s : SchedState) (i : Nat) (pre post : List (Nat × WStage))
      (hw : s.workers = pre ++ (i, WStage.running) :: post) :
      SchedStep N C s
        ⟨s.dispatched, pre ++ (i, WStage.finished) :: post, s.returned⟩
  | ret (s : SchedState) (hret : s.returned = false)
      (hdone : s.dispatched = N)
      (hall : ∀ w ∈ s.workers, w.2 = WStage.finished) :
      SchedStep N C s ⟨s.dispatched, s.workers, true⟩

/-- States reachable by the dispatch loop from its start. -/
inductive SchedReachable (N C : Nat) : SchedState → Prop where
  | init : SchedReachable N C initSched
  | step {s s' : SchedState} (h : SchedReachable N C s)
      (hs : SchedStep N C s s') : SchedReachable N C s'

/-- The inductive invariant of the dispatch loop. -/
def SchedInv (N C : Nat) (s : SchedState) : Prop :=
  runningCount s ≤ C ∧
  s.workers.length = s.dispatched ∧
  (s.workers.map Prod.fst).Nodup ∧
  (∀ w ∈ s.workers, w.1 < s.dispatched) ∧
  (s.returned = true → s.dispatched = N ∧
    ∀ w ∈ s.workers, w.2 = WStage.finished)

lemma schedInv_step {N C : Nat} {s s' : SchedState}
    (hs : SchedStep N C s s') (ih : SchedInv N C s) : SchedInv N C s' := by
  obtain ⟨ic, ilen, ind, ibound, iret⟩ := ih
  cases hs with
  | dispatch hret hn hc =>
    refine ⟨?_, ?_, ?_, ?_, ?_⟩
    · show (((s.dispatched, WStage.running) :: s.workers).filter
        (fun w => w.2 == WStage.running)).length ≤ C
      rw [List.filter_cons]
      simp only [beq_self_eq_true, if_pos, List.length_cons]
      exact hc
    · show s.workers.length + 1 = s.dispatched + 1
      omega
    · show (((s.dispatched, WStage.running) :: s.workers).map Prod.fst).Nodup
      simp only [List.map_cons, List.nodup_cons]
      refine ⟨?_, ind⟩
      intro hmem
      obtain ⟨w, hw, hwe⟩ := List.mem_map.mp hmem
      have := ibound w hw
      omega
    · intro w hw
      show w.1 < s.dispatched + 1
      rcases List.mem_cons.mp hw with rfl | hw'
      · simp
      · have := ibound w hw'
        omega
    · intro htrue
      have hfalse : s.returned = true := htrue
      rw [hret] at hfalse
      cases hfalse
  | finish i pre post hw =>
    refine ⟨?_, ?_, ?_, ?_, ?_⟩
    · show ((pre ++ (i, WStage.finished) :: post).filter
        (fun w => w.2 == WStage.running)).length ≤ C
      have hic : ((pre ++ (i, WStage.running) :: post).filter
          (fun w => w.2 == WStage.running)).length ≤ C := by
        rw [← hw]; exact ic
      simp only [List.filter_append, List.filter_cons,
        List.length_append] at hic ⊢
      simp at hic ⊢
      omega
    · show (pre ++ (i, WStage.finished) :: post).length = s.dispatched
      rw [hw] at ilen
      simpa using ilen
    · show ((pre ++ (i, WStage.finished) :: post).map Prod.fst).Nodup
      rw [hw] at ind
      simpa using ind
    · intro w hmem
      show w.1 < s.dispatched
      rw [hw] at ibound
      rcases List.mem_append.mp hmem with hp | hq
      · exact ibound w (List.mem_append.mpr (Or.inl hp))
      · rcases List.mem_cons.mp hq with rfl | hq'
        · have := ibound (i, WStage.running)
            (List.mem_append.mpr (Or.inr (List.mem_cons_self _ _)))
          simpa using this
        · exact ibound w
            (List.mem_append.mpr (Or.inr (List.mem_cons_of_mem _ hq')))
    · intro htrue
      obtain ⟨-, hfin⟩ := iret htrue
      have hm : (i, WStage.running) ∈ s.workers := by
        rw [hw]
        exact List.mem_append.mpr (Or.inr (List.mem_cons_self _ _))
      have := hfin _ hm
      simp at this
  | ret hret hdone hall =>
    exact ⟨ic, ilen, ind, ibound, fun _ => ⟨hdone, hall⟩⟩

lemma schedInv_holds {N C : Nat} {s : SchedState}
    (h : SchedReachable N C s) : SchedInv N C s := by
  induction h with
  | init =>
    refine ⟨?_, rfl, ?_, ?_, ?_⟩ <;> simp [runningCount, initSched]
  | step h hs ih => exact schedInv_step hs ih

/-- **C9.** In every reachable state of the dispatch loop with entity
count `N` and channel capacity `C`, at most `C` reconciles are in
flight; the dispatched entity indices are pairwise distinct (no entity
is reconciled twice); and when the caller has returned, all `N`
entities have been dispatched exactly once and every worker has
finished — the caller never returns with work outstanding. -/
theorem schedDispatch_bounded (N C : Nat) (s : SchedState)
    (h : SchedReachable N C s) :
    runningCount s ≤ C ∧
    (s.workers.map Prod.fst).Nodup ∧
    (s.returned = true →
      s.workers.length = N ∧
      (∀ i < N, (i, WStage.finished) ∈ s.workers) ∧
      ∀ w ∈ s.workers, w.2 = WStage.finished) := by
  obtain ⟨ic, ilen, ind, ibound, iret⟩ := schedInv_holds h
  refine ⟨ic, ind, ?_⟩
  intro htrue
  obtain ⟨hdN, hfin⟩ := iret htrue
  refine ⟨by omega, ?_, hfin⟩
  intro i hi
  have hlen : (s.workers.map Prod.fst).length = N := by
    simp [ilen, hdN]
  have hfs : (s.workers.map Prod.fst).toFinset = Finset.range N := by
    apply Finset.eq_of_subset_of_card_le
    · intro x hx
      rw [List.mem_toFinset] at hx
      obtain ⟨w, hw, rfl⟩ := List.mem_map.mp hx
      exact Finset.mem_range.mpr (hdN ▸ ibound w hw)
    · rw [Finset.card_range, List.toFinset_card_of_nodup ind, hlen]
  have hmem : i ∈ s.workers.map Prod.fst := by
    rw [← List.mem_toFinset, hfs]
    exact Finset.mem_range.mpr hi
  obtain ⟨w, hw, hwf⟩ := List.mem_map.mp hmem
  have hws : w.2 = WStage.finished := hfin w hw
  have hwe : w = (i, WStage.finished) := by
    obtain ⟨a, b⟩ := w
    simp only at hwf hws
    rw [hwf, hws]
  exact hwe ▸ hw

theorem schedDispatch_bounded_witness :
    runningCount ⟨1, [(0, WStage.running)], false⟩ ≤ 5 ∧
    ((⟨1, [(0, WStage.running)], false⟩ : SchedState).workers.map
      Prod.fst).Nodup ∧
    ((false : Bool) = true →
      ([((0 : Nat), WStage.running)] : List (Nat × WStage)).length = 50 ∧
      (∀ i < 50, ((i, WStage.finished) : Nat × WStage)
        ∈ [((0 : Nat), WStage.running)]) ∧
      ∀ w ∈ [((0 : Nat), WStage.running)], w.2 = WStage.finished) :=
  schedDispatch_bounded 50 5 ⟨1, [(0, WStage.running)], false⟩
    (SchedReachable.step SchedReachable.init
      (SchedStep.dispatch initSched rfl (by decide) (by decide)))
